import Mathlib

/-!
Verification of the SatDump LEO scan-line geolocation engine
(`LEOScanProjector` in `leo_projection.cpp`) and of the FengYun-3
MWTS-3 channel reader (`mwts3_reader.cpp`), as a shallow embedding in
Lean 4.  Machine floating-point arithmetic of the source is idealised
over the real numbers; C++ integer truncation and rounding are embedded
explicitly; fallible operations (out-of-bounds container accesses,
division by zero) are embedded through `Option` and explicit outcome
types.  External collaborators (the SGP4 orbital oracle `predict_orbit`
and the perspective projection primitive `TPERSProjection`) are
abstracted as function parameters, exactly at their call boundary.
-/

open Real

namespace projection

/-- C++ `(int)` conversion of a floating value: truncation toward zero. -/
noncomputable def cppTrunc (x : ℝ) : ℤ :=
  if 0 ≤ x then ⌊x⌋ else -⌊-x⌋

/-- C++ `round`: rounding to nearest, halfway cases away from zero. -/
noncomputable def cppRound (x : ℝ) : ℤ :=
  if 0 ≤ x then ⌊x + 1 / 2⌋ else -⌊(1 / 2) - x⌋

/-- The configuration value object `LEOScanProjectorSettings`.  The TLE
field of the source structure is not embedded: orbital propagation is
abstracted as an oracle parameter where it is consumed. -/
structure LEOScanProjectorSettings where
  proj_offset : ℝ
  correction_swath : ℝ
  correction_res : ℝ
  correction_height : ℝ
  instrument_swath : ℝ
  proj_scale : ℝ
  az_offset : ℝ
  tilt_offset : ℝ
  time_offset : ℝ
  image_width : ℤ
  invert_scan : Bool
  utc_timestamps : List ℝ

/-- `EARTH_RADIUS` constant of `initCurvatureTable`. -/
def EARTH_RADIUS : ℝ := 6371

/-- `corrected_width = round(settings.correction_swath / settings.correction_res)`. -/
noncomputable def corrected_width (s : LEOScanProjectorSettings) : ℤ :=
  cppRound (s.correction_swath / s.correction_res)

/-- `satellite_view_angle = settings.correction_swath / EARTH_RADIUS`. -/
noncomputable def satellite_view_angle (s : LEOScanProjectorSettings) : ℝ :=
  s.correction_swath / EARTH_RADIUS

/-- The satellite-relative angle `-atanf(R*sin(a) / (cos(a)*R - orbitRadius))`
shared by the edge-angle computation (line 16) and the per-sample
conversion (line 24) of `initCurvatureTable`. -/
noncomputable def satRelAngle (orbitRadius a : ℝ) : ℝ :=
  -Real.arctan (EARTH_RADIUS * Real.sin a / (Real.cos a * EARTH_RADIUS - orbitRadius))

/-- `edge_angle` of `initCurvatureTable` (line 16). -/
noncomputable def edge_angle (s : LEOScanProjectorSettings) : ℝ :=
  satRelAngle (EARTH_RADIUS + s.correction_height) (satellite_view_angle s / 2)

/-- The raw-pixel value `f` computed for loop index `i` of
`initCurvatureTable` (lines 23–25). -/
noncomputable def curvature_fwd_val (s : LEOScanProjectorSettings) (i : ℕ) : ℝ :=
  (s.image_width : ℝ) *
    ((satRelAngle (EARTH_RADIUS + s.correction_height)
        (((i : ℝ) / ((corrected_width s : ℤ) : ℝ) - 1 / 2) * satellite_view_angle s) /
      edge_angle s + 1) / 2)

/-- `curvature_correction_factors_fwd`: one `push_back` of `f` per loop
iteration `i < corrected_width` (line 26). -/
noncomputable def curvature_correction_factors_fwd (s : LEOScanProjectorSettings) : List ℝ :=
  (List.range (corrected_width s).toNat).map (curvature_fwd_val s)

/-- `curvature_correction_factors_inv` as the map of slots written by
`curvature_correction_factors_inv[int(f)] = i` (line 27), later writes
overwriting earlier ones; a slot never written holds no defined value
(the source only `reserve`s the storage). -/
noncomputable def curvature_correction_factors_inv (s : LEOScanProjectorSettings) :
    ℤ → Option ℤ :=
  (List.range (corrected_width s).toNat).foldl
    (fun m i => Function.update m (cppTrunc (curvature_fwd_val s i)) (some (i : ℤ)))
    (fun _ => none)

end projection

namespace projection

lemma cppRound_ofNat (n : ℕ) : cppRound (n : ℝ) = n := by
  unfold cppRound
  rw [if_pos (by positivity)]
  rw [Int.floor_eq_iff]
  constructor
  · push_cast; linarith
  · push_cast; linarith

lemma curvature_fwd_length (s : LEOScanProjectorSettings) :
    (curvature_correction_factors_fwd s).length = (corrected_width s).toNat := by
  unfold curvature_correction_factors_fwd
  rw [List.length_map, List.length_range]

lemma curvature_fwd_getD (s : LEOScanProjectorSettings) (k : ℕ)
    (hk : k < (curvature_correction_factors_fwd s).length) :
    (curvature_correction_factors_fwd s).getD k 0 = curvature_fwd_val s k := by
  rw [List.getD_eq_getElem _ _ hk]
  unfold curvature_correction_factors_fwd
  rw [List.getElem_map]
  congr 1
  exact List.getElem_range _ _

/-- Configuration used to exhibit the shape of the curvature tables:
raw image width 100, swath 40, resolution 10 (so corrected width 4),
correction height 827. -/
noncomputable def c3cfg : LEOScanProjectorSettings :=
  ⟨0, 40, 10, 827, 0, 0, 0, 0, 0, 100, false, []⟩

lemma c3cfg_cw : corrected_width c3cfg = 4 := by
  unfold corrected_width c3cfg
  norm_num
  exact cppRound_ofNat 4

/-- Claim C3 (counterexample): at a configuration with raw image width
100 but corrected width 4, the forward curvature table has length 4, not
the raw image width: the table is indexed by corrected pixels, not raw
pixels. -/
theorem claim_C3_counterexample :
    (curvature_correction_factors_fwd c3cfg).length = 4 ∧
      ¬((curvature_correction_factors_fwd c3cfg).length = c3cfg.image_width.toNat) := by
  have h := curvature_fwd_length c3cfg
  rw [c3cfg_cw] at h
  refine ⟨h, ?_⟩
  rw [h]
  decide

/-- A slot of the write-fold building the inverse curvature table is
defined only by a write: if the fold over `[0, n)` yields `some k` at
key `j`, then either the base map already held `k` there and no loop
index writes `j`, or `k` is the last loop index whose key equals `j`. -/
lemma foldl_update_last (key : ℕ → ℤ) :
    ∀ (n : ℕ) (base : ℤ → Option ℤ) (j k : ℤ),
      ((List.range n).foldl (fun m i => Function.update m (key i) (some (i : ℤ))) base) j =
        some k →
      (base j = some k ∧ ∀ i, i < n → key i ≠ j) ∨
        (∃ i : ℕ, i < n ∧ (i : ℤ) = k ∧ key i = j ∧
          ∀ i', i < i' → i' < n → key i' ≠ j) := by
  intro n
  induction n with
  | zero =>
    intro base j k h
    left
    exact ⟨h, fun i hi => absurd hi (Nat.not_lt_zero i)⟩
  | succ n ih =>
    intro base j k h
    rw [List.range_succ, List.foldl_append, List.foldl_cons, List.foldl_nil] at h
    by_cases hkey : key n = j
    · right
      refine ⟨n, Nat.lt_succ_self n, ?_, hkey, ?_⟩
      · rw [← hkey, Function.update_same] at h
        exact Option.some.inj h
      · intro i' h1 h2
        omega
    · rw [Function.update_noteq (Ne.symm hkey)] at h
      rcases ih base j k h with ⟨hbase, hall⟩ | ⟨i, hi, hik, hkeyi, hlast⟩
      · left
        refine ⟨hbase, fun i hi => ?_⟩
        rcases Nat.lt_succ_iff_lt_or_eq.mp hi with h' | rfl
        · exact hall i h'
        · exact hkey
      · right
        refine ⟨i, Nat.lt_succ_of_lt hi, hik, hkeyi, fun i' h1 h2 => ?_⟩
        rcases Nat.lt_succ_iff_lt_or_eq.mp h2 with h' | rfl
        · exact hlast i' h1 h'
        · exact hkey

/-- Claim C3 (amended): the forward curvature table has length equal to
the corrected width (swath divided by resolution, rounded), and maps each
corrected pixel index to the raw floating pixel position computed for it;
the inverse table is keyed by truncated raw pixel position, and every
defined slot holds the corrected index of the last forward entry whose
truncated raw pixel value equals that key. -/
theorem claim_C3_amended (s : LEOScanProjectorSettings) :
    (curvature_correction_factors_fwd s).length = (corrected_width s).toNat ∧
      (∀ i, i < (curvature_correction_factors_fwd s).length →
        (curvature_correction_factors_fwd s).getD i 0 = curvature_fwd_val s i) ∧
      (∀ j k, curvature_correction_factors_inv s j = some k →
        ∃ i : ℕ, i < (corrected_width s).toNat ∧ (i : ℤ) = k ∧
          cppTrunc (curvature_fwd_val s i) = j ∧
          ∀ i', i < i' → i' < (corrected_width s).toNat →
            cppTrunc (curvature_fwd_val s i') ≠ j) := by
  refine ⟨curvature_fwd_length s, fun i hi => curvature_fwd_getD s i hi, ?_⟩
  intro j k h
  unfold curvature_correction_factors_inv at h
  rcases foldl_update_last (fun i => cppTrunc (curvature_fwd_val s i))
      (corrected_width s).toNat (fun _ => none) j k h with ⟨hbase, _⟩ | hex
  · exact absurd hbase (by simp)
  · exact hex

lemma arctan_neg_of_neg {x : ℝ} (hx : x < 0) : Real.arctan x < 0 := by
  have := Real.arctan_strictMono hx
  rwa [Real.arctan_zero] at this

lemma arctan_pos_of_pos {x : ℝ} (hx : 0 < x) : 0 < Real.arctan x := by
  have := Real.arctan_strictMono hx
  rwa [Real.arctan_zero] at this

/-- With positive correction height and swath in `(0, π·R)`, the ratio fed
to the arctangent of the edge-angle formula is strictly negative (positive
numerator over negative denominator), so the leading negation makes the
edge angle strictly positive. -/
lemma edge_angle_pos (s : LEOScanProjectorSettings)
    (hh : 0 < s.correction_height) (hsw : 0 < s.correction_swath)
    (hpi : s.correction_swath < Real.pi * EARTH_RADIUS) :
    0 < edge_angle s := by
  unfold edge_angle satRelAngle satellite_view_angle EARTH_RADIUS
  have hR : (0 : ℝ) < 6371 := by norm_num
  set a := s.correction_swath / (6371 : ℝ) / 2 with ha
  have ha0 : 0 < a := by positivity
  have hpi' : s.correction_swath < Real.pi * 6371 := by
    unfold EARTH_RADIUS at hpi; exact hpi
  have hapi : a < Real.pi := by
    rw [ha, div_div, div_lt_iff₀ (by norm_num : (0:ℝ) < 6371 * 2)]
    nlinarith [Real.pi_pos]
  have hsin : 0 < Real.sin a := Real.sin_pos_of_pos_of_lt_pi ha0 hapi
  have hden : Real.cos a * 6371 - (6371 + s.correction_height) < 0 := by
    nlinarith [Real.cos_le_one a]
  have hfrac : (6371 : ℝ) * Real.sin a / (Real.cos a * 6371 - (6371 + s.correction_height)) < 0 :=
    div_neg_of_pos_of_neg (by nlinarith) hden
  have := arctan_neg_of_neg hfrac
  linarith

/-- Configuration with swath 6371 (equal to the earth radius, hence below
π·R) and height 100: the premises of claim C9 hold, yet the edge angle is
strictly positive. -/
noncomputable def c9cfg : LEOScanProjectorSettings :=
  ⟨0, 6371, 1, 100, 0, 0, 0, 0, 0, 1, false, []⟩

/-- Claim C9 (counterexample): a configuration with positive swath
strictly below π times the earth radius and strictly positive correction
height for which the edge angle is not strictly negative. -/
theorem claim_C9_counterexample :
    0 < c9cfg.correction_swath ∧ c9cfg.correction_swath < Real.pi * EARTH_RADIUS ∧
      0 < c9cfg.correction_height ∧ ¬(edge_angle c9cfg < 0) := by
  have hpi : (c9cfg.correction_swath : ℝ) < Real.pi * EARTH_RADIUS := by
    show (6371 : ℝ) < Real.pi * 6371
    nlinarith [Real.pi_gt_three]
  have hpos : 0 < edge_angle c9cfg := by
    apply edge_angle_pos c9cfg
    · norm_num [c9cfg]
    · norm_num [c9cfg]
    · exact hpi
  exact ⟨by norm_num [c9cfg], hpi, by norm_num [c9cfg], by linarith⟩

/-- Claim C9 (amended): for every configuration with positive correction
swath strictly less than π times the earth radius and strictly positive
correction height, the edge angle computed by the curvature table builder
is strictly positive (the source negates an arctangent whose argument is
negative: positive chord numerator over negative denominator). -/
theorem claim_C9_amended (s : LEOScanProjectorSettings)
    (hh : 0 < s.correction_height) (hsw : 0 < s.correction_swath)
    (hpi : s.correction_swath < Real.pi * EARTH_RADIUS) :
    0 < edge_angle s :=
  edge_angle_pos s hh hsw hpi

/-- Claim C9 (witness for the amended theorem). -/
theorem claim_C9_amended_witness :
    0 < c9cfg.correction_height ∧ 0 < c9cfg.correction_swath ∧
      c9cfg.correction_swath < Real.pi * EARTH_RADIUS ∧ 0 < edge_angle c9cfg := by
  have h1 : 0 < c9cfg.correction_height := by norm_num [c9cfg]
  have h2 : 0 < c9cfg.correction_swath := by norm_num [c9cfg]
  have h3 : c9cfg.correction_swath < Real.pi * EARTH_RADIUS := by
    show (6371 : ℝ) < Real.pi * 6371
    nlinarith [Real.pi_gt_three]
  exact ⟨h1, h2, h3, claim_C9_amended c9cfg h1 h2 h3⟩

/-- The ratio inside the arctangent of `satRelAngle`. -/
noncomputable def curvRatio (orbitRadius a : ℝ) : ℝ :=
  EARTH_RADIUS * Real.sin a / (Real.cos a * EARTH_RADIUS - orbitRadius)

lemma satRelAngle_eq (orbitRadius a : ℝ) :
    satRelAngle orbitRadius a = -Real.arctan (curvRatio orbitRadius a) := rfl

lemma curvRatio_den_neg {r : ℝ} (hr : EARTH_RADIUS < r) (a : ℝ) :
    Real.cos a * EARTH_RADIUS - r < 0 := by
  unfold EARTH_RADIUS at *
  nlinarith [Real.cos_le_one a]

/-- Strict antitonicity of the chord ratio on an interval where the
midpoint stays in the region `r · cos > R`: for `a < b` with span below π
and `R < r · cos((a+b)/2)`, the ratio at `b` is strictly below the ratio
at `a`. -/
lemma curvRatio_strictAnti {r a b : ℝ} (hr : EARTH_RADIUS < r) (hab : a < b)
    (hspan : b - a < Real.pi) (hmid : EARTH_RADIUS < r * Real.cos ((a + b) / 2)) :
    curvRatio r b < curvRatio r a := by
  have hda := curvRatio_den_neg hr a
  have hdb := curvRatio_den_neg hr b
  have hda' : Real.cos a * EARTH_RADIUS - r ≠ 0 := ne_of_lt hda
  have hdb' : Real.cos b * EARTH_RADIUS - r ≠ 0 := ne_of_lt hdb
  have hprod : 0 < (Real.cos a * EARTH_RADIUS - r) * (Real.cos b * EARTH_RADIUS - r) :=
    mul_pos_of_neg_of_neg hda hdb
  -- sign of the bracket `R·cos((a−b)/2) − r·cos((a+b)/2)`
  have hS : Real.sin ((a - b) / 2) < 0 := by
    apply Real.sin_neg_of_neg_of_neg_pi_lt
    · linarith
    · linarith
  have hbr : EARTH_RADIUS * Real.cos ((a - b) / 2) - r * Real.cos ((a + b) / 2) < 0 := by
    have h1 : Real.cos ((a - b) / 2) ≤ 1 := Real.cos_le_one _
    unfold EARTH_RADIUS at *
    nlinarith
  have hsinsub : Real.sin a - Real.sin b =
      2 * Real.sin ((a - b) / 2) * Real.cos ((a + b) / 2) := Real.sin_sub_sin a b
  have hsinab : Real.sin (a - b) = 2 * Real.sin ((a - b) / 2) * Real.cos ((a - b) / 2) := by
    have := Real.sin_two_mul ((a - b) / 2)
    rw [show 2 * ((a - b) / 2) = a - b by ring] at this
    exact this
  have hexp : Real.sin (a - b) =
      Real.sin a * Real.cos b - Real.cos a * Real.sin b := Real.sin_sub a b
  -- numerator comparison after clearing (negative) denominators
  have hnum : EARTH_RADIUS * Real.sin b * (Real.cos a * EARTH_RADIUS - r) -
      EARTH_RADIUS * Real.sin a * (Real.cos b * EARTH_RADIUS - r) < 0 := by
    have hkey : 0 < Real.sin ((a - b) / 2) *
        (EARTH_RADIUS * Real.cos ((a - b) / 2) - r * Real.cos ((a + b) / 2)) :=
      mul_pos_of_neg_of_neg hS hbr
    unfold EARTH_RADIUS at *
    nlinarith
  have hdiff : curvRatio r b - curvRatio r a =
      (EARTH_RADIUS * Real.sin b * (Real.cos a * EARTH_RADIUS - r) -
        EARTH_RADIUS * Real.sin a * (Real.cos b * EARTH_RADIUS - r)) /
        ((Real.cos a * EARTH_RADIUS - r) * (Real.cos b * EARTH_RADIUS - r)) := by
    unfold curvRatio
    field_simp
    ring
  have : curvRatio r b - curvRatio r a < 0 := by
    rw [hdiff]
    exact div_neg_of_neg_of_pos hnum hprod
  linarith

/-- On the same interval, the satellite-relative angle is strictly
increasing. -/
lemma satRelAngle_strictMono {r a b : ℝ} (hr : EARTH_RADIUS < r) (hab : a < b)
    (hspan : b - a < Real.pi) (hmid : EARTH_RADIUS < r * Real.cos ((a + b) / 2)) :
    satRelAngle r a < satRelAngle r b := by
  rw [satRelAngle_eq, satRelAngle_eq]
  have := Real.arctan_strictMono (curvRatio_strictAnti hr hab hspan hmid)
  linarith

/-- Claim C5 (amended): for every configuration with nonnegative raw
image width, positive correction height, and swath in `(0, π·R)` whose
scan stays inside the monotone regime `R < (R + h) · cos(swath / (2R))`,
the forward curvature table is monotonically non-decreasing. -/
theorem claim_C5_amended (s : LEOScanProjectorSettings)
    (hW : 0 ≤ s.image_width) (hh : 0 < s.correction_height)
    (hsw : 0 < s.correction_swath)
    (hswpi : s.correction_swath < Real.pi * EARTH_RADIUS)
    (hgeo : EARTH_RADIUS <
      (EARTH_RADIUS + s.correction_height) * Real.cos (satellite_view_angle s / 2)) :
    ∀ i j, i ≤ j → j < (curvature_correction_factors_fwd s).length →
      (curvature_correction_factors_fwd s).getD i 0 ≤
        (curvature_correction_factors_fwd s).getD j 0 := by
  intro i j hij hj
  have hi : i < (curvature_correction_factors_fwd s).length := lt_of_le_of_lt hij hj
  rw [curvature_fwd_getD s i hi, curvature_fwd_getD s j hj]
  rcases eq_or_lt_of_le hij with rfl | hij'
  · exact le_refl _
  unfold curvature_fwd_val
  set r := EARTH_RADIUS + s.correction_height with hrdef
  have hr : EARTH_RADIUS < r := by rw [hrdef]; linarith
  have hr0 : 0 < r := by unfold EARTH_RADIUS at hr; linarith
  set v := satellite_view_angle s with hvdef
  have hv : 0 < v := by
    rw [hvdef]; unfold satellite_view_angle EARTH_RADIUS; positivity
  have hvpi : v < Real.pi := by
    rw [hvdef]; unfold satellite_view_angle
    rw [div_lt_iff₀ (by unfold EARTH_RADIUS; norm_num)]
    calc s.correction_swath < Real.pi * EARTH_RADIUS := hswpi
    _ = Real.pi * EARTH_RADIUS := rfl
  -- the corrected width as a positive real
  have hlen : (curvature_correction_factors_fwd s).length = (corrected_width s).toNat :=
    curvature_fwd_length s
  have hcwpos : 0 < corrected_width s := by
    rcases lt_or_le 0 (corrected_width s) with h | h
    · exact h
    · exfalso
      have h0 : (corrected_width s).toNat = 0 := Int.toNat_of_nonpos h
      rw [hlen, h0] at hj
      omega
  set cw : ℝ := ((corrected_width s : ℤ) : ℝ) with hcwdef
  have hcwR : 1 ≤ cw := by
    rw [hcwdef]
    exact_mod_cast hcwpos
  have hcw0 : (0:ℝ) < cw := by linarith
  have hjcw : (j : ℝ) < cw := by
    rw [hcwdef]
    have : j < (corrected_width s).toNat := by rw [← hlen]; exact hj
    have h2 : (j : ℤ) < corrected_width s := by
      omega
    exact_mod_cast h2
  set ai : ℝ := ((i : ℝ) / cw - 1 / 2) * v with haidef
  set aj : ℝ := ((j : ℝ) / cw - 1 / 2) * v with hajdef
  have hijR : (i : ℝ) < (j : ℝ) := by exact_mod_cast hij'
  have hfrac_lt : (i : ℝ) / cw < (j : ℝ) / cw := by
    have := mul_lt_mul_of_pos_right hijR (inv_pos.mpr hcw0)
    simpa [div_eq_mul_inv] using this
  have hai_lt_aj : ai < aj := by
    rw [haidef, hajdef]
    nlinarith [mul_pos (sub_pos.mpr hfrac_lt) hv]
  have hfrac_i : (0 : ℝ) ≤ (i : ℝ) / cw := div_nonneg (Nat.cast_nonneg i) (le_of_lt hcw0)
  have hfrac_j : (j : ℝ) / cw < 1 := (div_lt_one hcw0).mpr hjcw
  have hai_lb : -(v / 2) ≤ ai := by
    rw [haidef]
    nlinarith [mul_nonneg hfrac_i (le_of_lt hv)]
  have haj_ub : aj < v / 2 := by
    rw [hajdef]
    nlinarith [mul_lt_mul_of_pos_right (show (j : ℝ) / cw - 1 / 2 < 1 / 2 by linarith) hv]
  have hspan : aj - ai < Real.pi := by linarith
  have hmid : EARTH_RADIUS < r * Real.cos ((ai + aj) / 2) := by
    have hm_abs : |(ai + aj) / 2| ≤ v / 2 := by
      rw [abs_le]
      constructor
      · linarith
      · linarith
    have hcosm : Real.cos (v / 2) ≤ Real.cos |(ai + aj) / 2| :=
      Real.cos_le_cos_of_nonneg_of_le_pi (abs_nonneg _)
        (by linarith [Real.pi_pos]) hm_abs
    rw [Real.cos_abs] at hcosm
    calc EARTH_RADIUS < r * Real.cos (v / 2) := hgeo
    _ ≤ r * Real.cos ((ai + aj) / 2) := mul_le_mul_of_nonneg_left hcosm (le_of_lt hr0)
  have hmono : satRelAngle r ai < satRelAngle r aj :=
    satRelAngle_strictMono hr hai_lt_aj hspan hmid
  have hedge : 0 < edge_angle s := edge_angle_pos s hh hsw hswpi
  have hW' : (0 : ℝ) ≤ (s.image_width : ℝ) := by exact_mod_cast hW
  gcongr

lemma cppRound_eq_of (x : ℝ) (n : ℤ) (hx : 0 ≤ x) (h1 : (n : ℝ) ≤ x + 1 / 2)
    (h2 : x + 1 / 2 < n + 1) : cppRound x = n := by
  unfold cppRound
  rw [if_pos hx, Int.floor_eq_iff]
  exact ⟨h1, h2⟩

lemma cppTrunc_eq_zero_of_neg {x : ℝ} (h1 : -1 < x) (h2 : x < 0) : cppTrunc x = 0 := by
  unfold cppTrunc
  rw [if_neg (by linarith)]
  have : ⌊-x⌋ = 0 := by
    rw [Int.floor_eq_iff]
    constructor
    · push_cast; linarith
    · push_cast; linarith
  rw [this]
  ring

lemma cppTrunc_of_nonneg {x : ℝ} (h : 0 ≤ x) : cppTrunc x = ⌊x⌋ := by
  unfold cppTrunc
  rw [if_pos h]

lemma sqrt2_gt : (1.41 : ℝ) < Real.sqrt 2 := by
  nlinarith [Real.sq_sqrt (show (0:ℝ) ≤ 2 by norm_num), Real.sqrt_nonneg 2]

lemma sqrt2_lt : Real.sqrt 2 < (1.42 : ℝ) := by
  nlinarith [Real.sq_sqrt (show (0:ℝ) ≤ 2 by norm_num), Real.sqrt_nonneg 2]

lemma sqrt3_gt : (1.73 : ℝ) < Real.sqrt 3 := by
  nlinarith [Real.sq_sqrt (show (0:ℝ) ≤ 3 by norm_num), Real.sqrt_nonneg 3]

/-- A configuration spanning a half-circumference swath (view angle π)
with corrected width 4 and raw image width 1: the hostile regime in which
the curvature tables misbehave. -/
noncomputable def picfg : LEOScanProjectorSettings :=
  ⟨0, Real.pi * 6371, Real.pi * 6371 / 4, 827, 0, 0, 0, 0, 0, 1, false, []⟩

lemma picfg_cw : corrected_width picfg = 4 := by
  unfold corrected_width picfg
  have h : (Real.pi * 6371) / (Real.pi * 6371 / 4) = 4 := by
    rw [div_div_eq_mul_div, mul_comm, mul_div_assoc]
    rw [div_self (by positivity : (Real.pi * 6371 : ℝ) ≠ 0)]
    ring
  rw [h]
  exact cppRound_eq_of 4 4 (by norm_num) (by norm_num) (by norm_num)

lemma picfg_v : satellite_view_angle picfg = Real.pi := by
  unfold satellite_view_angle picfg EARTH_RADIUS
  rw [mul_div_assoc]
  norm_num

lemma satRel_neg_pi_div_two :
    satRelAngle 7198 (-(Real.pi / 2)) = -Real.arctan (6371 / 7198) := by
  unfold satRelAngle EARTH_RADIUS
  rw [Real.sin_neg, Real.cos_neg, Real.sin_pi_div_two, Real.cos_pi_div_two]
  norm_num

lemma satRel_zero : satRelAngle 7198 0 = 0 := by
  unfold satRelAngle EARTH_RADIUS
  simp

/-- Half-chord abbreviation `6371·(√2/2)` appearing at the quarter-swath
samples of the hostile configuration. -/
noncomputable def Yc : ℝ := 6371 * (Real.sqrt 2 / 2)

lemma Yc_bounds : 4491 < Yc ∧ Yc < 4524 := by
  unfold Yc
  constructor
  · nlinarith [sqrt2_gt]
  · nlinarith [sqrt2_lt]

lemma satRel_neg_pi_div_four :
    satRelAngle 7198 (-(Real.pi / 4)) = -Real.arctan (Yc / (7198 - Yc)) := by
  unfold satRelAngle EARTH_RADIUS Yc
  rw [Real.sin_neg, Real.cos_neg, Real.sin_pi_div_four, Real.cos_pi_div_four]
  congr 1
  rw [show (Real.sqrt 2 / 2) * 6371 - 7198 = -(7198 - 6371 * (Real.sqrt 2 / 2)) by ring]
  rw [div_neg]
  rw [show (6371:ℝ) * -(Real.sqrt 2 / 2) = -(6371 * (Real.sqrt 2 / 2)) by ring]
  rw [neg_div, neg_neg]

lemma satRel_pi_div_four :
    satRelAngle 7198 (Real.pi / 4) = Real.arctan (Yc / (7198 - Yc)) := by
  unfold satRelAngle EARTH_RADIUS Yc
  rw [Real.sin_pi_div_four, Real.cos_pi_div_four]
  rw [show (6371:ℝ) * (Real.sqrt 2 / 2) / (Real.sqrt 2 / 2 * 6371 - 7198) =
    -(6371 * (Real.sqrt 2 / 2) / (7198 - 6371 * (Real.sqrt 2 / 2))) by
      rw [show (Real.sqrt 2 / 2) * 6371 - 7198 = -(7198 - 6371 * (Real.sqrt 2 / 2)) by ring]
      rw [div_neg]]
  rw [Real.arctan_neg, neg_neg]

lemma pi6_lt_E : Real.pi / 6 < Real.arctan (6371 / 7198) := by
  have hpi := Real.pi_pos
  have h1 : Real.arctan (Real.tan (Real.pi / 6)) = Real.pi / 6 :=
    Real.arctan_tan (by linarith) (by linarith)
  have h2 : Real.tan (Real.pi / 6) < 6371 / 7198 := by
    rw [Real.tan_eq_sin_div_cos, Real.sin_pi_div_six, Real.cos_pi_div_six]
    rw [div_lt_div_iff₀ (by positivity) (by norm_num)]
    nlinarith [sqrt3_gt]
  calc Real.pi / 6 = Real.arctan (Real.tan (Real.pi / 6)) := h1.symm
  _ < Real.arctan (6371 / 7198) := Real.arctan_strictMono h2

lemma E_lt_A : Real.arctan (6371 / 7198) < Real.arctan (Yc / (7198 - Yc)) := by
  apply Real.arctan_strictMono
  obtain ⟨hY1, hY2⟩ := Yc_bounds
  rw [div_lt_div_iff₀ (by norm_num) (by linarith)]
  nlinarith

lemma A_lt_3E : Real.arctan (Yc / (7198 - Yc)) < 3 * Real.arctan (6371 / 7198) := by
  have h1 : Real.arctan (Yc / (7198 - Yc)) < Real.pi / 2 := Real.arctan_lt_pi_div_two _
  have h2 := pi6_lt_E
  linarith

lemma E_pos : 0 < Real.arctan (6371 / 7198) :=
  arctan_pos_of_pos (by norm_num)

lemma satRel_pi_div_two :
    satRelAngle 7198 (Real.pi / 2) = Real.arctan (6371 / 7198) := by
  unfold satRelAngle EARTH_RADIUS
  rw [Real.sin_pi_div_two, Real.cos_pi_div_two]
  rw [show (6371:ℝ) * 1 / (0 * 6371 - 7198) = -(6371 / 7198) by norm_num]
  rw [Real.arctan_neg, neg_neg]

lemma picfg_edge : edge_angle picfg = Real.arctan (6371 / 7198) := by
  unfold edge_angle
  rw [picfg_v]
  rw [show EARTH_RADIUS + picfg.correction_height = 7198 by
    unfold EARTH_RADIUS picfg; norm_num]
  exact satRel_pi_div_two

lemma picfg_fval (i : ℕ) : curvature_fwd_val picfg i =
    (satRelAngle 7198 (((i : ℝ) / 4 - 1 / 2) * Real.pi) /
      Real.arctan (6371 / 7198) + 1) / 2 := by
  unfold curvature_fwd_val
  rw [picfg_cw, picfg_v, picfg_edge]
  rw [show EARTH_RADIUS + picfg.correction_height = 7198 by
    unfold EARTH_RADIUS picfg; norm_num]
  rw [show (picfg.image_width : ℝ) = 1 by unfold picfg; norm_num]
  push_cast
  ring

lemma picfg_f0 : curvature_fwd_val picfg 0 = 0 := by
  rw [picfg_fval]
  rw [show (((0:ℕ) : ℝ) / 4 - 1 / 2) * Real.pi = -(Real.pi / 2) by push_cast; ring]
  rw [satRel_neg_pi_div_two, neg_div, div_self (ne_of_gt E_pos)]
  norm_num

lemma picfg_f1_bounds :
    -1 < curvature_fwd_val picfg 1 ∧ curvature_fwd_val picfg 1 < 0 := by
  rw [picfg_fval]
  rw [show (((1:ℕ) : ℝ) / 4 - 1 / 2) * Real.pi = -(Real.pi / 4) by push_cast; ring]
  rw [satRel_neg_pi_div_four]
  have hAE : 1 < Real.arctan (Yc / (7198 - Yc)) / Real.arctan (6371 / 7198) :=
    (one_lt_div E_pos).mpr E_lt_A
  have hA3 : Real.arctan (Yc / (7198 - Yc)) / Real.arctan (6371 / 7198) < 3 :=
    (div_lt_iff₀ E_pos).mpr (by linarith [A_lt_3E])
  rw [neg_div]
  constructor
  · linarith
  · linarith

lemma picfg_f2 : curvature_fwd_val picfg 2 = 1 / 2 := by
  rw [picfg_fval]
  rw [show (((2:ℕ) : ℝ) / 4 - 1 / 2) * Real.pi = 0 by push_cast; ring]
  rw [satRel_zero, zero_div]
  norm_num

lemma picfg_f3_bounds :
    1 ≤ curvature_fwd_val picfg 3 ∧ curvature_fwd_val picfg 3 < 2 := by
  rw [picfg_fval]
  rw [show (((3:ℕ) : ℝ) / 4 - 1 / 2) * Real.pi = Real.pi / 4 by push_cast; ring]
  rw [satRel_pi_div_four]
  have hAE : 1 < Real.arctan (Yc / (7198 - Yc)) / Real.arctan (6371 / 7198) :=
    (one_lt_div E_pos).mpr E_lt_A
  have hA3 : Real.arctan (Yc / (7198 - Yc)) / Real.arctan (6371 / 7198) < 3 :=
    (div_lt_iff₀ E_pos).mpr (by linarith [A_lt_3E])
  constructor
  · linarith
  · linarith

lemma picfg_k0 : cppTrunc (curvature_fwd_val picfg 0) = 0 := by
  rw [picfg_f0, cppTrunc_of_nonneg (le_refl 0)]
  exact Int.floor_zero

lemma picfg_k1 : cppTrunc (curvature_fwd_val picfg 1) = 0 :=
  cppTrunc_eq_zero_of_neg picfg_f1_bounds.1 picfg_f1_bounds.2

lemma picfg_k2 : cppTrunc (curvature_fwd_val picfg 2) = 0 := by
  rw [picfg_f2, cppTrunc_of_nonneg (by norm_num)]
  rw [Int.floor_eq_iff]
  norm_num

lemma picfg_k3 : cppTrunc (curvature_fwd_val picfg 3) = 1 := by
  obtain ⟨h1, h2⟩ := picfg_f3_bounds
  rw [cppTrunc_of_nonneg (by linarith)]
  rw [Int.floor_eq_iff]
  constructor
  · push_cast; linarith
  · push_cast; linarith

lemma picfg_inv0 : curvature_correction_factors_inv picfg 0 = some 2 := by
  unfold curvature_correction_factors_inv
  rw [picfg_cw]
  show ((List.range 4).foldl
    (fun m i => Function.update m (cppTrunc (curvature_fwd_val picfg i)) (some (i : ℤ)))
    (fun _ => none)) 0 = some 2
  rw [show List.range 4 = [0, 1, 2, 3] from rfl]
  simp only [List.foldl_cons, List.foldl_nil]
  rw [picfg_k0, picfg_k1, picfg_k2, picfg_k3]
  rw [Function.update_noteq (by decide : (0:ℤ) ≠ 1)]
  exact Function.update_same _ _ _

/-- Claim C3 (witness for the amended theorem): the forward-table shape
at the corrected-width-4 configuration, and the inverse-table slot
`picfg` defines at key 0, which the theorem resolves to the last
colliding forward entry. -/
theorem claim_C3_amended_witness :
    (curvature_correction_factors_fwd c3cfg).length = (corrected_width c3cfg).toNat ∧
      (curvature_correction_factors_fwd c3cfg).getD 0 0 = curvature_fwd_val c3cfg 0 ∧
      curvature_correction_factors_inv picfg 0 = some 2 ∧
      (∃ i : ℕ, i < (corrected_width picfg).toNat ∧ (i : ℤ) = 2 ∧
        cppTrunc (curvature_fwd_val picfg i) = 0 ∧
        ∀ i', i < i' → i' < (corrected_width picfg).toNat →
          cppTrunc (curvature_fwd_val picfg i') ≠ 0) := by
  refine ⟨(claim_C3_amended c3cfg).1, (claim_C3_amended c3cfg).2.1 0 ?_, picfg_inv0,
    (claim_C3_amended picfg).2.2 0 2 picfg_inv0⟩
  rw [(claim_C3_amended c3cfg).1, c3cfg_cw]
  norm_num

/-- Claim C5 (counterexample): the hostile configuration has edge angle
strictly between 0 and 90 degrees, yet its forward curvature table is not
monotonically non-decreasing: entry 1 is strictly below entry 0. -/
theorem claim_C5_counterexample :
    (0 < edge_angle picfg ∧ edge_angle picfg < Real.pi / 2) ∧
      1 < (curvature_correction_factors_fwd picfg).length ∧
      ¬((curvature_correction_factors_fwd picfg).getD 0 0 ≤
          (curvature_correction_factors_fwd picfg).getD 1 0) := by
  have hlen : (curvature_correction_factors_fwd picfg).length = 4 := by
    rw [curvature_fwd_length, picfg_cw]
    rfl
  have h0 := curvature_fwd_getD picfg 0 (by rw [hlen]; norm_num)
  have h1 := curvature_fwd_getD picfg 1 (by rw [hlen]; norm_num)
  refine ⟨⟨?_, ?_⟩, ?_, ?_⟩
  · rw [picfg_edge]; exact E_pos
  · rw [picfg_edge]; exact Real.arctan_lt_pi_div_two _
  · rw [hlen]; norm_num
  · rw [h0, h1, picfg_f0, not_le]
    exact picfg_f1_bounds.2

/-- Claim C5 (witness for the amended theorem): the realistic MWTS-2
configuration (swath 1400 km, resolution 350 km, height 827 km, raw width
100) lies in the monotone regime and its table is non-decreasing between
entries 0 and 1. -/
noncomputable def c5wcfg : LEOScanProjectorSettings :=
  ⟨0, 1400, 350, 827, 0, 0, 0, 0, 0, 100, false, []⟩

lemma c5wcfg_cw : corrected_width c5wcfg = 4 := by
  unfold corrected_width c5wcfg
  norm_num
  exact cppRound_eq_of 4 4 (by norm_num) (by norm_num) (by norm_num)

theorem claim_C5_amended_witness :
    (0 ≤ c5wcfg.image_width ∧ 0 < c5wcfg.correction_height ∧
        0 < c5wcfg.correction_swath ∧
        c5wcfg.correction_swath < Real.pi * EARTH_RADIUS ∧
        EARTH_RADIUS < (EARTH_RADIUS + c5wcfg.correction_height) *
          Real.cos (satellite_view_angle c5wcfg / 2)) ∧
      (curvature_correction_factors_fwd c5wcfg).getD 0 0 ≤
        (curvature_correction_factors_fwd c5wcfg).getD 1 0 := by
  have hW : (0:ℤ) ≤ c5wcfg.image_width := by unfold c5wcfg; norm_num
  have hh : (0:ℝ) < c5wcfg.correction_height := by unfold c5wcfg; norm_num
  have hsw : (0:ℝ) < c5wcfg.correction_swath := by unfold c5wcfg; norm_num
  have hswpi : c5wcfg.correction_swath < Real.pi * EARTH_RADIUS := by
    show (1400 : ℝ) < Real.pi * 6371
    nlinarith [Real.pi_gt_three]
  have hgeo : EARTH_RADIUS < (EARTH_RADIUS + c5wcfg.correction_height) *
      Real.cos (satellite_view_angle c5wcfg / 2) := by
    show (6371 : ℝ) < (6371 + 827) * Real.cos ((1400 : ℝ) / 6371 / 2)
    have hb := Real.one_sub_sq_div_two_le_cos (x := (1400:ℝ) / 6371 / 2)
    nlinarith [hb]
  have hlen : 1 < (curvature_correction_factors_fwd c5wcfg).length := by
    rw [curvature_fwd_length, c5wcfg_cw]
    norm_num
  exact ⟨⟨hW, hh, hsw, hswpi, hgeo⟩,
    claim_C5_amended c5wcfg hW hh hsw hswpi hgeo 0 1 (by norm_num) hlen⟩

/-- Claim C6 (counterexample): in the hostile configuration, the forward
value at corrected index 0 is exactly 0, yet the inverse table at bin 0
holds index 2: the round-trip error is 2 corrected pixels, exceeding 1. -/
theorem claim_C6_counterexample :
    (curvature_correction_factors_fwd picfg).getD 0 0 = 0 ∧
      curvature_correction_factors_inv picfg
        (cppRound ((curvature_correction_factors_fwd picfg).getD 0 0)) = some 2 ∧
      ¬((2 : ℤ) - 0 ≤ 1) := by
  have hlen : (curvature_correction_factors_fwd picfg).length = 4 := by
    rw [curvature_fwd_length, picfg_cw]
    rfl
  have h0 := curvature_fwd_getD picfg 0 (by rw [hlen]; norm_num)
  have hf0 : (curvature_correction_factors_fwd picfg).getD 0 0 = 0 := by
    rw [h0, picfg_f0]
  refine ⟨hf0, ?_, by norm_num⟩
  rw [hf0]
  rw [show cppRound (0:ℝ) = 0 from cppRound_eq_of 0 0 (le_refl 0) (by norm_num) (by norm_num)]
  exact picfg_inv0

lemma foldl_update_lookup (key : ℕ → ℤ) :
    ∀ (n : ℕ) (base : ℤ → Option ℤ) (i : ℕ), i < n →
      (∀ j, j < n → j ≠ i → key j ≠ key i) →
      ((List.range n).foldl (fun m j => Function.update m (key j) (some (j : ℤ))) base)
        (key i) = some (i : ℤ) := by
  intro n
  induction n with
  | zero => intro base i hi _; omega
  | succ n ih =>
    intro base i hi hinj
    rw [List.range_succ, List.foldl_append, List.foldl_cons, List.foldl_nil]
    rcases Nat.lt_succ_iff_lt_or_eq.mp hi with h | rfl
    · rw [Function.update_noteq (hinj n (Nat.lt_succ_self n) (by omega)).symm]
      exact ih base i h (fun j hj hne => hinj j (Nat.lt_succ_of_lt hj) hne)
    · exact Function.update_same _ _ _

/-- Claim C6 (amended): whenever the truncated raw-pixel bins of the
forward table entries are pairwise distinct, the inverse table at the bin
of `forward[i]` recovers `i` exactly (zero round-trip error). -/
theorem claim_C6_amended (s : LEOScanProjectorSettings)
    (hinj : ∀ i j, i < (corrected_width s).toNat → j < (corrected_width s).toNat →
      i ≠ j → cppTrunc (curvature_fwd_val s i) ≠ cppTrunc (curvature_fwd_val s j)) :
    ∀ i, i < (corrected_width s).toNat →
      curvature_correction_factors_inv s (cppTrunc (curvature_fwd_val s i)) =
        some (i : ℤ) := by
  intro i hi
  unfold curvature_correction_factors_inv
  exact foldl_update_lookup (fun k => cppTrunc (curvature_fwd_val s k))
    (corrected_width s).toNat (fun _ => none) i hi
    (fun j hj hne => hinj j i hj hi hne)

/-- Claim C6 (witness for the amended theorem): a one-sample configuration
whose single bin is trivially injective. -/
noncomputable def c6wcfg : LEOScanProjectorSettings :=
  ⟨0, 6371, 6371, 827, 0, 0, 0, 0, 0, 1, false, []⟩

lemma c6wcfg_cw : corrected_width c6wcfg = 1 := by
  unfold corrected_width c6wcfg
  norm_num
  exact cppRound_eq_of 1 1 (by norm_num) (by norm_num) (by norm_num)

theorem claim_C6_amended_witness :
    (∀ i j, i < (corrected_width c6wcfg).toNat → j < (corrected_width c6wcfg).toNat →
        i ≠ j →
        cppTrunc (curvature_fwd_val c6wcfg i) ≠ cppTrunc (curvature_fwd_val c6wcfg j)) ∧
      curvature_correction_factors_inv c6wcfg
        (cppTrunc (curvature_fwd_val c6wcfg 0)) = some (0 : ℤ) := by
  have hinj : ∀ i j, i < (corrected_width c6wcfg).toNat →
      j < (corrected_width c6wcfg).toNat → i ≠ j →
      cppTrunc (curvature_fwd_val c6wcfg i) ≠ cppTrunc (curvature_fwd_val c6wcfg j) := by
    intro i j hi hj hne
    rw [c6wcfg_cw] at hi hj
    omega
  have h0 : (0:ℕ) < (corrected_width c6wcfg).toNat := by
    rw [c6wcfg_cw]
    norm_num
  exact ⟨hinj, claim_C6_amended c6wcfg hinj 0 h0⟩

/-- Outcome of a `LEOScanProjector::inverse` query: the early
out-of-range return (`return 1`), an out-of-bounds container access
(undefined behaviour in the source), a read of a reserved-but-unwritten
inverse-table slot (indeterminate value in the source), or the delegated
call `pj.inverse(pjx, 0, lon, lat)` on the line's projection with the
computed projection-space abscissa. -/
inductive InvOutcome where
  | outOfRange : InvOutcome
  | oobRead : InvOutcome
  | indeterminate : InvOutcome
  | query : ℕ → ℝ → InvOutcome

/-- The member state of a constructed `LEOScanProjector` object as read
by `inverse`: the settings, the `corrected_width` member, the inverse
curvature table, and the per-line projection and footprint sequences
(projections carry no data the embedding needs beyond their presence). -/
structure LEOScanProjector where
  settings : LEOScanProjectorSettings
  corrected_width_m : ℤ
  curvature_inv_m : ℤ → Option ℤ
  projs : List Unit
  sat_footprints : List ℝ

/-- The stepwise projection-space abscissa computation of
`LEOScanProjector::inverse` (lines 131–140), one `let` per source
statement. -/
noncomputable def inverse_pjx (corr_x width proj_offset proj_scale instrument_swath footprint : ℝ)
    (invert_scan : Bool) : ℝ :=
  let proj_x0 := if invert_scan then (width - 1) - corr_x else corr_x
  let proj_x1 := proj_x0 - width / 2
  let proj_x2 := proj_x1 + proj_offset
  let pjx := proj_x2 / (proj_scale * (width / 2))
  pjx * (instrument_swath / footprint)

/-- `LEOScanProjector::inverse` (lines 116–143).  The guard is the
source's `img_y > (int)projs.size() || img_x >= settings.image_width`;
the subsequent reference bindings `projs[img_y]` and
`sat_footprints[img_y]` are out-of-bounds unless `0 ≤ img_y < size`;
with `correct` set, `curvature_correction_factors_inv[img_x]` is an
out-of-bounds read for negative `img_x` and an indeterminate read for a
never-written slot. -/
noncomputable def inverse (p : LEOScanProjector) (img_x img_y : ℤ) (correct : Bool) :
    InvOutcome :=
  if img_y > (p.projs.length : ℤ) ∨ img_x ≥ p.settings.image_width then
    InvOutcome.outOfRange
  else if 0 ≤ img_y ∧ img_y < (p.projs.length : ℤ) ∧ img_y < (p.sat_footprints.length : ℤ)
  then
    let footprint := p.sat_footprints.getD img_y.toNat 0
    if correct then
      if img_x < 0 then InvOutcome.oobRead
      else
        match p.curvature_inv_m img_x with
        | none => InvOutcome.indeterminate
        | some cx =>
          InvOutcome.query img_y.toNat
            (inverse_pjx (cx : ℝ) (p.corrected_width_m : ℝ) p.settings.proj_offset
              p.settings.proj_scale p.settings.instrument_swath footprint
              p.settings.invert_scan)
    else
      InvOutcome.query img_y.toNat
        (inverse_pjx (img_x : ℝ) (p.settings.image_width : ℝ) p.settings.proj_offset
          p.settings.proj_scale p.settings.instrument_swath footprint
          p.settings.invert_scan)
  else InvOutcome.oobRead

/-- A projector holding exactly one per-line projection and footprint. -/
noncomputable def c1proj : LEOScanProjector :=
  ⟨⟨60, 1400, 17.4 / 20, 827, 2200, 2.42, 0, 0, 0, 90, true, [0]⟩,
    4, fun _ => none, [()], [1]⟩

/-- Claim C1 (code bug evaluation): with exactly one configured scan
line, the query at `lineIndex = 1` (equal to the number of lines) slips
past the guard `img_y > projs.size()` and performs an out-of-bounds read
of the per-line sequences instead of returning the out-of-range
indication. -/
theorem claim_C1_bounds_bug :
    c1proj.projs.length = 1 ∧
      inverse c1proj 0 1 false = InvOutcome.oobRead ∧
      inverse c1proj 0 1 false ≠ InvOutcome.outOfRange := by
  refine ⟨rfl, ?_, ?_⟩
  · unfold inverse c1proj
    norm_num
  · unfold inverse c1proj
    norm_num
    intro h
    exact InvOutcome.noConfusion h

/-- The projection-space abscissa as the specification words compose it:
the (optionally curvature-resolved) pixel, mirrored across the line when
scan inversion is configured, recentered by subtracting half the
reference width, shifted by the fixed pixel offset, divided by
`projectionScale × halfWidth`, and multiplied by
`instrumentFieldOfViewSwath / footprint`. -/
noncomputable def spec_pjx (corr_x width proj_offset proj_scale instrument_swath footprint : ℝ)
    (invert_scan : Bool) : ℝ :=
  (((if invert_scan then (width - 1) - corr_x else corr_x) - width / 2 + proj_offset) /
      (proj_scale * (width / 2))) * (instrument_swath / footprint)

/-- Claim C7: for every in-range query, `inverse` delegates to the
line's projection primitive with exactly the specification's coordinate:
mirror, recenter by half the reference width, shift by the pixel offset,
normalize by `projectionScale × halfWidth`, and rescale by the per-line
`instrument_swath / footprint[lineIndex]`. -/
theorem claim_C7_pjx_formula (p : LEOScanProjector) (img_x img_y : ℤ) (correct : Bool)
    (cx : ℤ)
    (hy0 : 0 ≤ img_y) (hy1 : img_y < (p.projs.length : ℤ))
    (hy2 : img_y < (p.sat_footprints.length : ℤ))
    (hx0 : 0 ≤ img_x) (hx1 : img_x < p.settings.image_width)
    (hlook : (if correct then p.curvature_inv_m img_x else some img_x) = some cx) :
    inverse p img_x img_y correct =
      InvOutcome.query img_y.toNat
        (spec_pjx (cx : ℝ)
          (if correct then (p.corrected_width_m : ℝ) else (p.settings.image_width : ℝ))
          p.settings.proj_offset p.settings.proj_scale p.settings.instrument_swath
          (p.sat_footprints.getD img_y.toNat 0) p.settings.invert_scan) := by
  have hguard : ¬(img_y > (p.projs.length : ℤ) ∨ img_x ≥ p.settings.image_width) := by
    push_neg
    exact ⟨le_of_lt hy1, hx1⟩
  unfold inverse
  rw [if_neg hguard, if_pos ⟨hy0, hy1, hy2⟩]
  cases correct with
  | false =>
    have hcx : img_x = cx := by simpa using hlook
    subst hcx
    rfl
  | true =>
    rw [if_pos rfl, if_neg (not_lt.mpr hx0)]
    have hlook2 : p.curvature_inv_m img_x = some cx := by simpa using hlook
    rw [hlook2]
    rfl

/-- A projector state exercising the curvature-corrected branch of the
query. -/
noncomputable def c7proj : LEOScanProjector :=
  ⟨⟨1, 40, 10, 827, 6, 2, 0, 0, 0, 4, true, [0]⟩,
    3, fun j => if j = 1 then some 2 else none, [()], [2]⟩

/-- Claim C7 (witness). -/
theorem claim_C7_pjx_formula_witness :
    ((0:ℤ) ≤ 0 ∧ (0:ℤ) < (c7proj.projs.length : ℤ) ∧
        (0:ℤ) < (c7proj.sat_footprints.length : ℤ) ∧
        (0:ℤ) ≤ 1 ∧ (1:ℤ) < c7proj.settings.image_width ∧
        (if true then c7proj.curvature_inv_m 1 else some 1) = some 2) ∧
      inverse c7proj 1 0 true =
        InvOutcome.query 0
          (spec_pjx ((2:ℤ) : ℝ) ((c7proj.corrected_width_m : ℤ) : ℝ)
            c7proj.settings.proj_offset c7proj.settings.proj_scale
            c7proj.settings.instrument_swath (c7proj.sat_footprints.getD 0 0)
            c7proj.settings.invert_scan) := by
  have h1 : (0:ℤ) < (c7proj.projs.length : ℤ) := by norm_num [c7proj]
  have h2 : (0:ℤ) < (c7proj.sat_footprints.length : ℤ) := by norm_num [c7proj]
  have h3 : (1:ℤ) < c7proj.settings.image_width := by norm_num [c7proj]
  have h4 : (if true then c7proj.curvature_inv_m 1 else some 1) = some 2 := by
    norm_num [c7proj]
  refine ⟨⟨le_refl 0, h1, h2, by norm_num, h3, h4⟩, ?_⟩
  have := claim_C7_pjx_formula c7proj 1 0 true 2 (le_refl 0) h1 h2 (by norm_num) h3 h4
  simpa using this

/-- The record returned by the orbital oracle `predict_orbit` at a given
time, restricted to the fields `generateProjections` reads. -/
structure predict_position where
  latitude : ℝ
  longitude : ℝ
  altitude : ℝ
  footprint : ℝ

/-- The parameters of a `TPERSProjection::init` call: altitude in
meters, longitude and latitude in degrees, tilt, azimuth. -/
structure TPERSInitParams where
  altitude : ℝ
  lon : ℝ
  lat : ℝ
  tilt : ℝ
  az : ℝ

/-- The `toSatCoords` lambda of `generateProjections` (lines 42–59):
project `(lon, lat)` through the tangent-plane forward primitive, bail
out to `(-1, -1)` on saturated coordinates, then scale and recenter into
a `map_width × map_height` logical raster with C++ int truncation. -/
noncomputable def toSatCoords (F : ℝ → ℝ → ℝ × ℝ) (lat lon : ℝ)
    (map_height map_width : ℤ) : ℤ × ℤ :=
  let xy := F lon lat
  if |xy.1| > 1e10 ∨ |xy.2| > 1e10 then (-1, -1)
  else
    let image_x := cppTrunc (xy.1 * 4 * ((map_width : ℝ) / 2))
    let image_y := cppTrunc (xy.2 * 4 * ((map_height : ℝ) / 2))
    let image_x2 := cppTrunc ((image_x : ℝ) + (map_width : ℝ) / 2)
    let image_y2 := cppTrunc ((image_y : ℝ) + (map_height : ℝ) / 2)
    (image_x2, (map_height - 1) - image_y2)

/-- The finite-difference azimuth `atan((cc1.y − cc2.y) / (cc1.x −
cc2.x)) * 57.29578` (line 85), under IEEE float semantics: a zero
denominator with nonzero numerator saturates the arctangent to ±90°,
while `0/0` is NaN — no defined value, embedded as `none`. -/
noncomputable def azFromCoords (cc1 cc2 : ℤ × ℤ) : Option ℝ :=
  let dy : ℝ := (cc1.2 : ℝ) - (cc2.2 : ℝ)
  let dx : ℝ := (cc1.1 : ℝ) - (cc2.1 : ℝ)
  if dx = 0 then
    if dy = 0 then none
    else some ((if 0 < dy then Real.pi / 2 else -(Real.pi / 2)) * 57.29578)
  else some (Real.arctan (dy / dx) * 57.29578)

/-- The azimuth convention adjustment of `generateProjections`
(lines 88–98): record the sign of the raw azimuth, subtract 90°, then
subtract the configured azimuth offset when the raw azimuth was positive
and add it otherwise. -/
noncomputable def az_with_offset (az az_offset : ℝ) : ℝ :=
  let invertOffset := 0 < az
  let az1 := az - 90
  if invertOffset then az1 - az_offset else az1 + az_offset

/-- The per-scan-line state produced by one iteration of the
`generateProjections` loop (lines 61–105): the propagated position, the
two finite-difference propagation times, the raw azimuth (when defined),
the parameters passed to the line's `pj.init`, and the stored footprint. -/
structure ScanResult where
  pos : predict_position
  fdTimes : ℝ × ℝ
  az : Option ℝ
  pjInit : Option TPERSInitParams
  footprint : ℝ

/-- One iteration of the `generateProjections` loop for the scan-line
timestamp `ts`, with the orbital oracle and the tangent-plane forward
projection abstracted as parameters. -/
noncomputable def processScan (oracle : ℝ → predict_position)
    (F : TPERSInitParams → ℝ → ℝ → ℝ × ℝ) (s : LEOScanProjectorSettings) (ts : ℝ) :
    ScanResult :=
  let currentTimestamp := ts + s.time_offset
  let satellite_orbit := oracle currentTimestamp
  let nadir : TPERSInitParams :=
    ⟨satellite_orbit.altitude * 1000, satellite_orbit.longitude * 57.29578,
      satellite_orbit.latitude * 57.29578, 0, 0⟩
  let satellite_pos1 := oracle (currentTimestamp - 200)
  let satellite_pos2 := oracle (currentTimestamp + 200)
  let geo_cc1 := toSatCoords (F nadir) (satellite_pos1.latitude * 57.29578)
    (satellite_pos1.longitude * 57.29578) 200 200
  let geo_cc2 := toSatCoords (F nadir) (satellite_pos2.latitude * 57.29578)
    (satellite_pos2.longitude * 57.29578) 200 200
  let azq := azFromCoords geo_cc1 geo_cc2
  { pos := satellite_orbit
    fdTimes := (currentTimestamp - 200, currentTimestamp + 200)
    az := azq
    pjInit := azq.map (fun a =>
      ⟨satellite_orbit.altitude * 1000, satellite_orbit.longitude * 57.29578,
        satellite_orbit.latitude * 57.29578, s.tilt_offset,
        az_with_offset a s.az_offset⟩)
    footprint := satellite_orbit.footprint }

/-- A stationary orbital oracle (constant position) and a degenerate
tangent-plane projection. -/
noncomputable def zeroOracle : ℝ → predict_position := fun _ => ⟨0, 0, 0, 1⟩

noncomputable def zeroF : TPERSInitParams → ℝ → ℝ → ℝ × ℝ := fun _ _ _ => (0, 0)

/-- Minimal settings for the scan-loop scenarios: zero time offset,
azimuth offset 5. -/
noncomputable def zcfg : LEOScanProjectorSettings :=
  ⟨0, 0, 1, 0, 0, 0, 5, 0, 0, 1, false, []⟩

/-- Claim C2 (counterexample): at timestamp 1000 with zero time offset,
the first finite-difference propagation time is 800 — that is, 200
seconds before the scan time, not 200 milliseconds. -/
theorem claim_C2_counterexample :
    (processScan zeroOracle zeroF zcfg 1000).fdTimes.1 = 800 ∧
      (processScan zeroOracle zeroF zcfg 1000).fdTimes.1 ≠
        1000 + zcfg.time_offset - 1 / 5 := by
  have h : (processScan zeroOracle zeroF zcfg 1000).fdTimes.1 = 800 := by
    show (1000 : ℝ) + zcfg.time_offset - 200 = 800
    norm_num [zcfg]
  refine ⟨h, ?_⟩
  rw [h]
  norm_num [zcfg]

/-- Claim C2 (amended): for every scan line with timestamp `t` (after
applying the configured time offset), the azimuth estimator propagates
the oracle at exactly `t − 200` and `t + 200` seconds. -/
theorem claim_C2_amended (oracle : ℝ → predict_position)
    (F : TPERSInitParams → ℝ → ℝ → ℝ × ℝ) (s : LEOScanProjectorSettings) (ts : ℝ) :
    (processScan oracle F s ts).fdTimes =
      (ts + s.time_offset - 200, ts + s.time_offset + 200) := rfl

/-- Claim C4 (code bug evaluation): when the two finite-difference
samples project to the same tangent-plane point, the azimuth computation
divides zero by zero: it has no defined value (`none`), not a defined
fallback.  In particular a stationary synthetic orbit produces an
undefined azimuth. -/
theorem claim_C4_div_by_zero :
    (∀ p : ℤ × ℤ, azFromCoords p p = none) ∧
      (processScan zeroOracle zeroF zcfg 0).az = none := by
  have hall : ∀ p : ℤ × ℤ, azFromCoords p p = none := by
    intro p
    unfold azFromCoords
    simp
  exact ⟨hall, hall _⟩

/-- Claim C8: when the raw finite-difference azimuth is defined, the
azimuth used to initialise the line's projection equals the raw azimuth
minus 90 degrees, with the configured azimuth offset subtracted when the
raw azimuth is strictly positive and added otherwise. -/
theorem claim_C8_azimuth (oracle : ℝ → predict_position)
    (F : TPERSInitParams → ℝ → ℝ → ℝ × ℝ) (s : LEOScanProjectorSettings) (ts : ℝ)
    (a : ℝ) (haz : (processScan oracle F s ts).az = some a) :
    (processScan oracle F s ts).pjInit =
      some ⟨(processScan oracle F s ts).pos.altitude * 1000,
        (processScan oracle F s ts).pos.longitude * 57.29578,
        (processScan oracle F s ts).pos.latitude * 57.29578,
        s.tilt_offset,
        if 0 < a then a - 90 - s.az_offset else a - 90 + s.az_offset⟩ := by
  have h : (processScan oracle F s ts).pjInit =
      ((processScan oracle F s ts).az).map (fun b =>
        ⟨(processScan oracle F s ts).pos.altitude * 1000,
          (processScan oracle F s ts).pos.longitude * 57.29578,
          (processScan oracle F s ts).pos.latitude * 57.29578,
          s.tilt_offset, az_with_offset b s.az_offset⟩) := rfl
  rw [h, haz]
  rfl

/-- Oracle and tangent-plane projection for the C8 witness: longitude
equal to the propagation time, and a forward map that cancels the
degree conversion. -/
noncomputable def c8oracle : ℝ → predict_position := fun t => ⟨0, t, 0, 1⟩

noncomputable def c8F : TPERSInitParams → ℝ → ℝ → ℝ × ℝ :=
  fun _ lon _ => (lon / 57.29578 / 400, 0)

/-- Claim C8 (witness). -/
theorem claim_C8_azimuth_witness :
    (processScan c8oracle c8F zcfg 0).az = some 0 ∧
      (processScan c8oracle c8F zcfg 0).pjInit =
        some ⟨(processScan c8oracle c8F zcfg 0).pos.altitude * 1000,
          (processScan c8oracle c8F zcfg 0).pos.longitude * 57.29578,
          (processScan c8oracle c8F zcfg 0).pos.latitude * 57.29578,
          zcfg.tilt_offset,
          if (0:ℝ) < 0 then (0:ℝ) - 90 - zcfg.az_offset else (0:ℝ) - 90 + zcfg.az_offset⟩ := by
  have haz : (processScan c8oracle c8F zcfg 0).az = some 0 := by
    show azFromCoords
      (toSatCoords (c8F _) ((c8oracle ((0:ℝ) + zcfg.time_offset - 200)).latitude * 57.29578)
        ((c8oracle ((0:ℝ) + zcfg.time_offset - 200)).longitude * 57.29578) 200 200)
      (toSatCoords (c8F _) ((c8oracle ((0:ℝ) + zcfg.time_offset + 200)).latitude * 57.29578)
        ((c8oracle ((0:ℝ) + zcfg.time_offset + 200)).longitude * 57.29578) 200 200) = some 0
    norm_num [toSatCoords, azFromCoords, c8oracle, c8F, zcfg, cppTrunc,
      abs_of_nonneg, abs_of_nonpos]
  exact ⟨haz, claim_C8_azimuth c8oracle c8F zcfg 0 0 haz⟩

end projection

namespace fengyun3

namespace mwts3

/-- A CCSDS space packet, restricted to the payload bytes the reader
consumes. -/
structure CCSDSPacket where
  payload : List ℕ

/-- The `MWTS3Reader` state: 18 channel buffers, a line counter, and the
timestamp list. -/
structure MWTS3Reader where
  channels : Fin 18 → List ℕ
  lines : ℕ
  timestamps : List ℝ

/-- The `MWTS3Reader` constructor: every channel resized to 98 slots
(value-initialised to zero), zero lines, no timestamps. -/
def initReader : MWTS3Reader :=
  ⟨fun _ => List.replicate 98 0, 0, []⟩

/-- `std::vector::resize`: truncate or zero-pad to the requested size. -/
def listResize (l : List ℕ) (n : ℕ) : List ℕ :=
  l.take n ++ List.replicate (n - l.length) 0

/-- Big-endian 16-bit sample assembly `payload[k] << 8 | payload[k+1]`. -/
def byteWord (hi lo : ℕ) : ℕ :=
  (hi <<< 8) ||| lo

/-- The doubly nested sample-copy loop shared by the four marker
branches of `MWTS3Reader::work`, specialised to one channel `c`: for
`i < cnt`, write the 16-bit word at payload offset
`pos + (18*i + c)*2` into slot `base + i` of the channel buffer. -/
def writeBlock (payload : List ℕ) (pos base cnt c : ℕ) (l : List ℕ) : List ℕ :=
  (List.range cnt).foldl
    (fun acc i => acc.set (base + i)
      (byteWord (payload.getD (pos + (18 * i + c) * 2) 0)
        (payload.getD (pos + (18 * i + c) * 2 + 1) 0))) l

/-- The marker dispatch of `MWTS3Reader::work` (lines 27–68).  The
timestamp parser `ccsds::parseCCSDSTimeFullRaw(&payload[2],…) + 12*3600`
is an external collaborator, abstracted as `parseTime`. -/
def stepMarker (parseTime : List ℕ → ℝ) (packet : CCSDSPacket) (r : MWTS3Reader) :
    MWTS3Reader :=
  let marker := (packet.payload.getD 0 0 >>> 4) &&& 7
  if marker = 1 then
    { channels := fun c =>
        writeBlock packet.payload (224 + 144 * 2) (r.lines * 98) 14 (c : ℕ) (r.channels c)
      lines := r.lines + 1
      timestamps := r.timestamps ++ [parseTime packet.payload] }
  else if marker = 2 then
    { r with channels := fun c =>
        writeBlock packet.payload 8 (r.lines * 98 + 14) 28 (c : ℕ) (r.channels c) }
  else if marker = 3 then
    { r with channels := fun c =>
        writeBlock packet.payload 8 (r.lines * 98 + 42) 28 (c : ℕ) (r.channels c) }
  else if marker = 4 then
    { r with channels := fun c =>
        writeBlock packet.payload 8 (r.lines * 98 + 70) 28 (c : ℕ) (r.channels c) }
  else r

/-- The trailing `channels[i].resize((lines + 1) * 98)` of
`MWTS3Reader::work` (lines 71–72). -/
def finalizeResize (r : MWTS3Reader) : MWTS3Reader :=
  { r with channels := fun c => listResize (r.channels c) ((r.lines + 1) * 98) }

/-- `MWTS3Reader::work`: drop short packets, dispatch on the marker,
then re-extend every channel buffer. -/
def work (parseTime : List ℕ → ℝ) (packet : CCSDSPacket) (r : MWTS3Reader) :
    MWTS3Reader :=
  if packet.payload.length < 1018 then r
  else finalizeResize (stepMarker parseTime packet r)

/-- The reader invariant: every channel buffer has exactly
`(lines + 1) * 98` slots and one timestamp is stored per line. -/
def Inv (r : MWTS3Reader) : Prop :=
  (∀ c : Fin 18, (r.channels c).length = (r.lines + 1) * 98) ∧
    r.timestamps.length = r.lines

lemma listResize_length (l : List ℕ) (n : ℕ) : (listResize l n).length = n := by
  unfold listResize
  rw [List.length_append, List.length_take, List.length_replicate]
  omega

lemma writeBlock_length (payload : List ℕ) (pos base cnt c : ℕ) (l : List ℕ) :
    (writeBlock payload pos base cnt c l).length = l.length := by
  unfold writeBlock
  generalize List.range cnt = L
  induction L generalizing l with
  | nil => rfl
  | cons x xs ih =>
    rw [List.foldl_cons, ih, List.length_set]

lemma stepMarker_lines (parseTime : List ℕ → ℝ) (packet : CCSDSPacket) (r : MWTS3Reader) :
    (stepMarker parseTime packet r).lines =
      (if (packet.payload.getD 0 0 >>> 4) &&& 7 = 1 then r.lines + 1 else r.lines) := by
  unfold stepMarker
  by_cases h1 : (packet.payload.getD 0 0 >>> 4) &&& 7 = 1
  · rw [if_pos h1, if_pos h1]
  · rw [if_neg h1, if_neg h1]
    by_cases h2 : (packet.payload.getD 0 0 >>> 4) &&& 7 = 2
    · rw [if_pos h2]
    · rw [if_neg h2]
      by_cases h3 : (packet.payload.getD 0 0 >>> 4) &&& 7 = 3
      · rw [if_pos h3]
      · rw [if_neg h3]
        by_cases h4 : (packet.payload.getD 0 0 >>> 4) &&& 7 = 4
        · rw [if_pos h4]
        · rw [if_neg h4]

lemma stepMarker_timestamps (parseTime : List ℕ → ℝ) (packet : CCSDSPacket)
    (r : MWTS3Reader) :
    (stepMarker parseTime packet r).timestamps =
      (if (packet.payload.getD 0 0 >>> 4) &&& 7 = 1 then
        r.timestamps ++ [parseTime packet.payload] else r.timestamps) := by
  unfold stepMarker
  by_cases h1 : (packet.payload.getD 0 0 >>> 4) &&& 7 = 1
  · rw [if_pos h1, if_pos h1]
  · rw [if_neg h1, if_neg h1]
    by_cases h2 : (packet.payload.getD 0 0 >>> 4) &&& 7 = 2
    · rw [if_pos h2]
    · rw [if_neg h2]
      by_cases h3 : (packet.payload.getD 0 0 >>> 4) &&& 7 = 3
      · rw [if_pos h3]
      · rw [if_neg h3]
        by_cases h4 : (packet.payload.getD 0 0 >>> 4) &&& 7 = 4
        · rw [if_pos h4]
        · rw [if_neg h4]

lemma work_of_long (parseTime : List ℕ → ℝ) (packet : CCSDSPacket) (r : MWTS3Reader)
    (h : ¬packet.payload.length < 1018) :
    work parseTime packet r = finalizeResize (stepMarker parseTime packet r) := by
  unfold work
  rw [if_neg h]

/-- Claim C10: after construction and after every `work` call the reader
invariant holds (channel sizes `(lines+1)·98`, one timestamp per line);
`work` increments `lines` and appends exactly one timestamp if and only
if the payload holds at least 1018 bytes and the marker field is 1; and
a short packet leaves the state unchanged. -/
theorem claim_C10_reader_invariant :
    Inv initReader ∧
      ∀ (parseTime : List ℕ → ℝ) (packet : CCSDSPacket) (r : MWTS3Reader), Inv r →
        Inv (work parseTime packet r) ∧
          ((work parseTime packet r).lines = r.lines + 1 ∧
              (work parseTime packet r).timestamps.length = r.timestamps.length + 1 ↔
            1018 ≤ packet.payload.length ∧
              (packet.payload.getD 0 0 >>> 4) &&& 7 = 1) ∧
          (packet.payload.length < 1018 → work parseTime packet r = r) := by
  constructor
  · constructor
    · intro c
      show (List.replicate 98 0).length = (0 + 1) * 98
      simp
    · rfl
  · intro parseTime packet r hInv
    by_cases hlen : packet.payload.length < 1018
    · have hw : work parseTime packet r = r := by
        unfold work
        rw [if_pos hlen]
      refine ⟨?_, ?_, fun _ => hw⟩
      · rw [hw]
        exact hInv
      rw [hw]
      constructor
      · rintro ⟨h1, _⟩
        omega
      · rintro ⟨_, h2⟩
        omega
    · have hw := work_of_long parseTime packet r hlen
      have hlines : (work parseTime packet r).lines = (stepMarker parseTime packet r).lines := by
        rw [hw]
        rfl
      have hts : (work parseTime packet r).timestamps =
          (stepMarker parseTime packet r).timestamps := by
        rw [hw]
        rfl
      refine ⟨?_, ?_, fun hcon => absurd hcon hlen⟩
      · constructor
        · intro c
          rw [hw]
          exact listResize_length _ _
        · rw [hts, stepMarker_timestamps]
          rw [show (work parseTime packet r).lines =
            (if (packet.payload.getD 0 0 >>> 4) &&& 7 = 1 then r.lines + 1 else r.lines)
            from by rw [hw]; exact stepMarker_lines parseTime packet r]
          by_cases h1 : (packet.payload.getD 0 0 >>> 4) &&& 7 = 1
          · rw [if_pos h1, if_pos h1, List.length_append, hInv.2]
            rfl
          · rw [if_neg h1, if_neg h1]
            exact hInv.2
      · rw [hlines, hts, stepMarker_lines, stepMarker_timestamps]
        by_cases h1 : (packet.payload.getD 0 0 >>> 4) &&& 7 = 1
        · rw [if_pos h1, if_pos h1]
          constructor
          · intro _
            exact ⟨by omega, h1⟩
          · intro _
            refine ⟨rfl, ?_⟩
            rw [List.length_append]
            rfl
        · rw [if_neg h1, if_neg h1]
          constructor
          · rintro ⟨hcon, _⟩
            omega
          · rintro ⟨_, hcon⟩
            exact absurd hcon h1

/-- Claim C10 (witness): a marker-1 packet of exactly 1018 payload bytes
applied to the freshly constructed reader. -/
def c10packet : CCSDSPacket :=
  ⟨16 :: List.replicate 1017 0⟩

theorem claim_C10_reader_invariant_witness :
    Inv initReader ∧
      Inv (work (fun _ => 0) c10packet initReader) ∧
      (work (fun _ => 0) c10packet initReader).lines = initReader.lines + 1 := by
  have h0 := claim_C10_reader_invariant.1
  have h1 := claim_C10_reader_invariant.2 (fun _ => 0) c10packet initReader h0
  refine ⟨h0, h1.1, ?_⟩
  have hcond : 1018 ≤ c10packet.payload.length ∧
      (c10packet.payload.getD 0 0 >>> 4) &&& 7 = 1 := by
    constructor
    · show 1018 ≤ (16 :: List.replicate 1017 0).length
      rw [List.length_cons, List.length_replicate]
    · rfl
  exact (h1.2.1.mpr hcond).1

end mwts3

end fengyun3
